import Mathlib

/-!
Verification development for the pitch-detection-app repository.

The TypeScript sources are shallowly embedded as Lean definitions:

* `tree-animation.tsx` — the p5 animation engine: the leaf pool, the bird
  set, the `fly` spawn operation, the per-frame `draw` step, the
  `generateLeafPositions` recursion and the `startRandomFlight` repeating
  campaign controller.
* `PitchMonitor` (the unnamed source file) — the frame-driven pitch
  scheduler `updatePitch` with its `pending` guard, the capture-readiness
  check, the cancellation flag of the monitoring effect, and the
  `colorMap` from note names to palette colors.

JavaScript numbers are IEEE doubles, hence rationals; numeric fields are
modelled as `ℚ`.  External mathematical functions (`p5.cos`, `p5.sin`,
randomness, the worker's pitch estimation, the imported `freqToNote`) are
passed as explicit parameters.  Asynchronous control flow is modelled as a
transition system: the synchronous prefix of `updatePitch` and the
continuation after `await getPitch` are separate transitions, and a trace
is a list of events folded over the step function.
-/

/-- A leaf of the animated tree (interface `Leaf` in tree-animation.tsx). -/
structure Leaf where
  x : ℚ
  y : ℚ
  size : ℚ
  color : List ℕ
  colorName : String
  isUsed : Bool
deriving DecidableEq

/-- A bird entity: position and RGB color.  The random speed, angle and
wing phase only affect movement, which the embedding abstracts as the
per-bird update function parameter of `drawStep`. -/
structure Bird where
  x : ℚ
  y : ℚ
  color : List ℕ
deriving DecidableEq

/-- State owned by the p5 sketch closure in `TreeAnimation`: the leaf
pool, the live bird set, and whether the frame loop is running
(`p.isLooping`). -/
structure EngineState where
  leaves : List Leaf
  birds : List Bird
  looping : Bool
deriving DecidableEq

/-- The `leafColors` record of tree-animation.tsx. -/
def leafColors : String → List ℕ
  | "yellow" => [255, 248, 0]
  | "orange" => [255, 119, 51]
  | "pink" => [250, 112, 206]
  | "red" => [242, 92, 100]
  | "green" => [112, 250, 154]
  | "darkgreen" => [95, 217, 134]
  | "blue" => [94, 255, 252]
  | "darkblue" => [66, 135, 245]
  | "purple" => [115, 92, 242]
  | "ash" => [117, 117, 117]
  | "brown" => [242, 170, 92]
  | "black" => [10, 10, 10]
  | _ => []

/-- Eligibility test of `fly`: `!leaf.isUsed && (color === null ||
leaf.colorName === color)`. -/
def leafEligible (color : Option String) (l : Leaf) : Bool :=
  !l.isUsed && (color == none || some l.colorName == color)

/-- Indices into the leaf pool of the `availableLeaves` computed by
`fly`.  The source filters the leaf objects themselves and mutates them
through shared references; the embedding tracks them by index. -/
def eligibleIdx (leaves : List Leaf) (color : Option String) : List ℕ :=
  (leaves.enum.filter fun p => leafEligible color p.2).map Prod.fst

/-- The `for (let i = 0; i < numToFly; i++)` loop of `fly`: pick a random
index into the shrinking `availableLeaves` list, mark the leaf used, push
a bird, splice the picked entry out.  `rand k` is the value
`Math.floor(p.random(availableLeaves.length))` would use at iteration
`k`; it is reduced mod the current length, which is the identity for the
in-range values `p.random` produces. -/
def flyLoop (rand : ℕ → ℕ) :
    ℕ → ℕ → List ℕ → List Leaf → List Bird → List Leaf × List Bird
  | 0, _, _, leaves, birds => (leaves, birds)
  | n + 1, k, avail, leaves, birds =>
    let idx := rand k % avail.length
    match avail.get? idx with
    | none => (leaves, birds)
    | some li =>
      match leaves.get? li with
      | none => (leaves, birds)
      | some leaf =>
        flyLoop rand n (k + 1) (avail.eraseIdx idx)
          (leaves.set li { leaf with isUsed := true })
          (birds ++ [{ x := leaf.x, y := leaf.y, color := leaf.color }])

/-- The `fly(color, count)` operation of tree-animation.tsx: spawn up to
`count` birds from distinct unused leaves of the requested color, then
`if (!p.isLooping()) p.loop()` — so the loop flag is set in every case. -/
def fly (s : EngineState) (color : Option String) (count : ℕ)
    (rand : ℕ → ℕ) : EngineState :=
  let avail := eligibleIdx s.leaves color
  let numToFly := min count avail.length
  let r := flyLoop rand numToFly 0 avail s.leaves []
  { s with leaves := r.1, birds := s.birds ++ r.2, looping := true }

/-- The `isOutOfBounds` check of class `Bird`, with the 700×700 canvas
of `p.createCanvas(700, 700)` and the 50-pixel buffer. -/
def isOutOfBounds (b : Bird) : Bool :=
  b.y < -50 || b.y > 700 + 50 || b.x < -50 || b.x > 700 + 50

/-- One execution of `p.draw`: every bird is advanced (`upd` abstracts
`Bird.update`, whose increments involve the bird's random speed and
angle), out-of-bounds birds are removed, and when the bird set has
emptied the loop stops (`p.noLoop()`). -/
def drawStep (upd : Bird → Bird) (s : EngineState) : EngineState :=
  let bs := (s.birds.map upd).filter fun b => !isOutOfBounds b
  { s with birds := bs, looping := if bs.isEmpty then false else s.looping }

/-- Count of used leaves in a pool. -/
def usedCount (leaves : List Leaf) : ℕ :=
  (leaves.filter fun l => l.isUsed).length

/-- Placeholder leaf used to read a pool position out of range; it is
never returned for indices the operations actually touch. -/
def dummyLeaf : Leaf :=
  { x := 0, y := 0, size := 0, color := [], colorName := "", isUsed := false }

/-- Whether the leaf at position `i` of the pool is used. -/
def getUsed (leaves : List Leaf) (i : ℕ) : Bool :=
  (leaves.getD i dummyLeaf).isUsed

/-- A sequence of `fly` calls (color, count, random source), folded over
the engine state. -/
def runFlys (s : EngineState) :
    List (Option String × ℕ × (ℕ → ℕ)) → EngineState
  | [] => s
  | c :: rest => runFlys (fly s c.1 c.2.1 c.2.2) rest

/-!
The flight controller (`startRandomFlight` in tree-animation.tsx) and the
shared `flightInterval` variable of the sketch closure.  `spawnLog`
records, for observation, the (color, count) of every `fly` invocation a
campaign timer performs.
-/

/-- Sketch-closure state relevant to flight campaigns: the single
`flightInterval` variable (the at-most-one active repeating campaign,
carrying its color and count) together with the engine state and the
observation log of timer-driven spawns. -/
structure SysState where
  flightInterval : Option (String × ℕ)
  engine : EngineState
  spawnLog : List (String × ℕ)
deriving DecidableEq

/-- `startRandomFlight(color, count)`: `clearInterval` on any existing
`flightInterval`, then install a fresh interval that calls
`fly(color, count)` each period.  Overwriting the single variable is the
clear-then-set of the source. -/
def startRF (c : String) (n : ℕ) (s : SysState) : SysState :=
  { s with flightInterval := some (c, n) }

/-- One firing of the active campaign interval (`setInterval` callback):
`fly(color, count)` with the campaign's parameters; no-op when no
campaign is installed. -/
def intervalTick (r : ℕ → ℕ) (s : SysState) : SysState :=
  match s.flightInterval with
  | none => s
  | some cn =>
    { s with engine := fly s.engine (some cn.1) cn.2 r,
             spawnLog := s.spawnLog ++ [cn] }

/-- The cancellation closure returned by `startRandomFlight`: it reads
the shared `flightInterval` variable at call time and clears whatever
interval is currently installed. -/
def handleCall (s : SysState) : SysState :=
  { s with flightInterval := none }

/-- The `useEffect` cleanup of `TreeAnimation`: `clearInterval` on the
current `flightInterval` (then `sketch.remove()`). -/
def teardownStep (s : SysState) : SysState :=
  { s with flightInterval := none }

/-- Events of the flight-controller transition system. -/
inductive SEvent where
  | start (c : String) (n : ℕ)
  | tick (r : ℕ → ℕ)
  | handle
  | teardown

/-- Step function over flight-controller events. -/
def sysStep (s : SysState) : SEvent → SysState
  | SEvent.start c n => startRF c n s
  | SEvent.tick r => intervalTick r s
  | SEvent.handle => handleCall s
  | SEvent.teardown => teardownStep s

/-- Fold a list of flight-controller events. -/
def runSys (s : SysState) : List SEvent → SysState
  | [] => s
  | e :: es => runSys (sysStep s e) es

/-- Whether an event is a campaign-timer firing. -/
def SEvent.isTick : SEvent → Bool
  | SEvent.tick _ => true
  | _ => false

/-!
The operations on the animation reachable from the `PitchMonitor`
orchestrator.  The `useTreeAnimation` hook wraps the controller: its
`startRandomFlight(color, count)` callback calls
`controller.startRandomFlight(color, count)` and returns nothing, so the
cancellation closure the controller returns is discarded.  `PitchMonitor`
only ever calls this wrapper; no caller of a cancellation closure exists
in the orchestrator.  The component teardown clears the interval.
-/

/-- The hook's `startRandomFlight` wrapper: forwards to the controller
and discards the returned cancellation closure (its result type is the
state alone — no handle escapes to the caller). -/
def hookStartRandomFlight (s : SysState) (c : String) (n : ℕ) : SysState :=
  startRF c n s

/-- Events the orchestrator can cause on the animation: starting a
campaign through the hook wrapper, a campaign-timer firing, and component
teardown.  There is no handle-invocation event: the handle is discarded
by the wrapper. -/
inductive OEvent where
  | ostart (c : String) (n : ℕ)
  | otick (r : ℕ → ℕ)
  | oteardown

/-- Step function over orchestrator-reachable animation events. -/
def orchStep (s : SysState) : OEvent → SysState
  | OEvent.ostart c n => hookStartRandomFlight s c n
  | OEvent.otick r => intervalTick r s
  | OEvent.oteardown => teardownStep s

/-- Fold a list of orchestrator events. -/
def runOrch (s : SysState) : List OEvent → SysState
  | [] => s
  | e :: es => runOrch (orchStep s e) es

/-- Whether an orchestrator event is a campaign-timer firing. -/
def OEvent.isTick : OEvent → Bool
  | OEvent.otick _ => true
  | _ => false

/-!
The `PitchMonitor` pitch scheduler.  `updatePitch` is an async callback:
its synchronous prefix runs up to the `await` of the worker's `getPitch`
call, and the rest runs when that promise resolves.  The embedding splits
it accordingly: `frameStep` is one `renderFrame` execution (cancellation
check, then the synchronous prefix of `updatePitch`), and
`resolveResponse` is the continuation processing a `getPitch` result.
`outstanding` counts issued-but-unresolved `getPitch` requests.
-/

/-- The `colorMap` literal of `updatePitch` (note name → palette color);
lookup of a name outside the twelve keys is `undefined`, i.e. `none`. -/
def colorMap : String → Option String
  | "C" => some "yellow"
  | "Db" => some "orange"
  | "D" => some "pink"
  | "Eb" => some "red"
  | "E" => some "green"
  | "F" => some "darkgreen"
  | "Gb" => some "blue"
  | "G" => some "darkblue"
  | "Ab" => some "purple"
  | "A" => some "ash"
  | "Bb" => some "brown"
  | "B" => some "black"
  | _ => none

/-- State of one `PitchMonitor` instance: `pending` is
`pendingRef.current`; `ready` is whether `pitchSetupRef.current` has its
analyser, buffer and audio context assigned (done by `setupConnection`);
`cancelled` is `escape.cancelRender` of the monitoring effect;
`outstanding` counts in-flight `getPitch` requests; `freq`/`clarity` are
the displayed state; `scheduledFlights` records, for observation, the
(color, count) of every delayed `startRandomFlight` the monitor has
queued via `setTimeout`. -/
structure MonitorState where
  pending : Bool
  ready : Bool
  cancelled : Bool
  outstanding : ℕ
  freq : Option ℚ
  clarity : Option ℚ
  scheduledFlights : List (Option String × ℤ)
deriving DecidableEq

/-- The initial monitor state: refs start false/empty, nothing displayed,
no request in flight. -/
def monitorInit : MonitorState :=
  { pending := false, ready := false, cancelled := false, outstanding := 0,
    freq := none, clarity := none, scheduledFlights := [] }

/-- Completion of `setupConnection`: buffer, audio context and analyser
are assigned, so the capture context is ready. -/
def setupDone (s : MonitorState) : MonitorState :=
  { s with ready := true }

/-- The effect cleanup on disable: sets `escape.cancelRender = true`. -/
def disableStep (s : MonitorState) : MonitorState :=
  { s with cancelled := true }

/-- The synchronous prefix of `updatePitch`: if `pendingRef.current` the
body is skipped; otherwise `pendingRef.current = true` is set first, then
the capture context is checked — absent, the function logs a warning and
returns (without resetting `pending`); present, the buffer is filled and
a `getPitch` request is issued. -/
def updatePitchSync (s : MonitorState) : MonitorState :=
  if s.pending then s
  else
    let s1 := { s with pending := true }
    if !s.ready then s1
    else { s1 with outstanding := s1.outstanding + 1 }

/-- One `renderFrame` execution: when `escape.cancelRender` is set it
returns at once (no further animation-frame request, no `updatePitch`);
otherwise it re-queues itself and runs the synchronous prefix of
`updatePitch`. -/
def frameStep (s : MonitorState) : MonitorState :=
  if s.cancelled then s else updatePitchSync s

/-- The continuation of `updatePitch` after `await getPitch` resolves
with `(frequency, clarity)`.  `noteOf` is the imported
`freqToNote` (external to this file's sources), giving the note name and
octave.  On `frequency > 0` the display is updated and a delayed
`startRandomFlight(colorMap[note], octave)` is queued; otherwise the
display is cleared.  Finally `pendingRef.current = false`.  Nothing in
the continuation consults the cancellation flag.  A response can only
arrive for an issued request, so the step is only meaningful (and is
only taken in traces) when `outstanding ≠ 0`; it is the identity
otherwise. -/
def resolveResponse (noteOf : ℚ → String × ℤ) (s : MonitorState)
    (frequency clarity : ℚ) : MonitorState :=
  if s.outstanding = 0 then s
  else
    let s1 :=
      if 0 < frequency then
        { s with freq := some frequency, clarity := some clarity,
                 scheduledFlights := s.scheduledFlights ++
                   [((colorMap (noteOf frequency).1), (noteOf frequency).2)] }
      else { s with freq := none, clarity := none }
    { s1 with pending := false, outstanding := s.outstanding - 1 }

/-- Events of the monitor transition system. -/
inductive MEvent where
  | setup
  | frame
  | resolve (frequency clarity : ℚ)
  | disable
deriving DecidableEq

/-- Step function of the monitor transition system. -/
def monitorStep (noteOf : ℚ → String × ℤ) (s : MonitorState) :
    MEvent → MonitorState
  | MEvent.setup => setupDone s
  | MEvent.frame => frameStep s
  | MEvent.resolve f c => resolveResponse noteOf s f c
  | MEvent.disable => disableStep s

/-- Fold a list of monitor events from a state. -/
def runMonitor (noteOf : ℚ → String × ℤ) (s : MonitorState) :
    List MEvent → MonitorState
  | [] => s
  | e :: es => runMonitor noteOf (monitorStep noteOf s e) es

/-!
Leaf-position generation (`generateLeafPositions` in tree-animation.tsx).
`cs`/`sn` abstract `p.cos`/`p.sin` and `pi` abstracts `p.PI` (JavaScript
doubles are rationals).  The source pushes the endpoint of every child
branch at every level and additionally pushes the current point when the
remaining depth is ≤ 1.
-/

/-- The `generateLeafPositions(x, y, len, angle, depth, positions)`
recursion.  `depth ≤ 1` records the current point and stops; otherwise
for each of the 2 or 3 children (3 when `depth > 4`) the child endpoint
is pushed and the recursion continues at that endpoint with length
`len * 0.65` and depth `depth - 1`. -/
def generateLeafPositions (cs sn : ℚ → ℚ) (pi : ℚ) :
    ℕ → ℚ → ℚ → ℚ → ℚ → List (ℚ × ℚ)
  | 0, x, y, _, _ => [(x, y)]
  | 1, x, y, _, _ => [(x, y)]
  | d + 2, x, y, len, angle =>
    let branchCount : ℕ := if d + 2 > 4 then 3 else 2
    let angleStep := pi / 3
    let startAngle := angle - (angleStep * ((branchCount : ℚ) - 1)) / 2
    (List.range branchCount).flatMap fun i =>
      let newAngle := startAngle + angleStep * (i : ℚ)
      let endX := x + len * cs newAngle
      let endY := y + len * sn newAngle
      (endX, endY) ::
        generateLeafPositions cs sn pi (d + 1) endX endY (len * (13 / 20))
          newAngle

/-- Number of positions `generateLeafPositions` records as a function of
the depth alone: `1` at depth ≤ 1, else `b · (1 + posCount (d - 1))`
with `b = 3` when `d > 4`, else `2` (each child contributes its endpoint
plus its own recursion). -/
def posCount : ℕ → ℕ
  | 0 => 1
  | 1 => 1
  | d + 2 => (if d + 2 > 4 then 3 else 2) * (1 + posCount (d + 1))

/-- The recording rule as the claim states it: a slot exactly at each
endpoint reached with remaining depth ≤ 1 and nowhere else.  With that
rule the slot count would be the product of the branch counts. -/
def claimedLeafCount : ℕ → ℕ
  | 0 => 1
  | 1 => 1
  | d + 2 => (if d + 2 > 4 then 3 else 2) * claimedLeafCount (d + 1)

/-- The palette-name list used by `generateLeaves` when coloring slots. -/
def paletteNames : List String :=
  ["yellow", "orange", "pink", "red", "green", "darkgreen", "blue",
   "darkblue", "purple", "ash", "brown", "black"]

/-- The `generateLeaves` loop body: one `Leaf` per recorded slot, with a
random palette color (`randColor i` models
`Math.floor(p.random(colors.length))` at slot `i`, reduced mod 12 as
that expression always is in range) and a random size
(`randSize i` models `p.random(12, 24)`). -/
def generateLeaves (positions : List (ℚ × ℚ)) (randColor : ℕ → ℕ)
    (randSize : ℕ → ℚ) : List Leaf :=
  positions.enum.map fun p =>
    let colorName := paletteNames.getD (randColor p.1 % 12) "yellow"
    { x := p.2.1, y := p.2.2, size := randSize p.1,
      color := leafColors colorName, colorName := colorName,
      isUsed := false }

/-!
The note mapper.  `PitchMonitor` imports `freqToNote` from
`circle-chart/utils`, a file not part of these sources, so it is
modelled from the spec.
-/

/-- The twelve chromatic note names in order starting at C, with flats,
matching the keys of `colorMap`. -/
def noteNames : List String :=
  ["C", "Db", "D", "Eb", "E", "F", "Gb", "G", "Ab", "A", "Bb", "B"]

/-- Modelled from the spec: the (name, octave) of a semitone offset from
A4, with the name rule amended to index the chromatic sequence at
`(offset + 9) mod 12` — the index that makes offset 0 the note A, as the
spec's own examples (440 → (A, 4)) and its octave formula
`4 + floor((offset + 9) / 12)` require. -/
def noteOfOffset (n : ℤ) : String × ℤ :=
  (noteNames.getD ((n + 9).emod 12).toNat "C", 4 + (n + 9).ediv 12)

/-- Modelled from the spec, literally: name = `offset mod 12` indexed
into the chromatic sequence starting at C; octave
= `4 + floor((offset + 9) / 12)`. -/
def noteOfOffsetLiteral (n : ℤ) : String × ℤ :=
  (noteNames.getD (n.emod 12).toNat "C", 4 + (n + 9).ediv 12)

/-- Modelled from the spec: semitone offset
= `round(12 · log2(freq / 440))`, over the reals. -/
noncomputable def semitoneOffset (f : ℝ) : ℤ :=
  round (12 * Real.logb 2 (f / 440))

/-- Modelled from the spec: `freqToNote` of `circle-chart/utils` (absent
from these sources), with the amended name rule of `noteOfOffset`. -/
noncomputable def freqToNote (f : ℝ) : String × ℤ :=
  noteOfOffset (semitoneOffset f)

/-- Modelled from the spec, literally: `freqToNote` with the spec's
literal name rule `offset mod 12` indexed from C. -/
noncomputable def freqToNoteLiteral (f : ℝ) : String × ℤ :=
  noteOfOffsetLiteral (semitoneOffset f)

/-!
Helper lemmas about the leaf pool.
-/

/-- Reading a used flag at a valid index. -/
theorem getUsed_eq_getElem (leaves : List Leaf) (i : ℕ)
    (h : i < leaves.length) : getUsed leaves i = leaves[i].isUsed := by
  simp [getUsed, List.getD_eq_getElem?_getD, List.getElem?_eq_getElem h]

/-- Setting one pool entry leaves the used flag of every other index
unchanged. -/
theorem getUsed_set_of_ne (leaves : List Leaf) (li i : ℕ) (a : Leaf)
    (h : i ≠ li) : getUsed (leaves.set li a) i = getUsed leaves i := by
  simp [getUsed, List.getD_eq_getElem?_getD, List.getElem?_set, Ne.symm h]

/-- Setting a pool entry in range installs its used flag. -/
theorem getUsed_set_self (leaves : List Leaf) (li : ℕ) (a : Leaf)
    (h : li < leaves.length) : getUsed (leaves.set li a) li = a.isUsed := by
  simp [getUsed, List.getD_eq_getElem?_getD, List.getElem?_set, h]

/-- Used-leaf count of a cons. -/
theorem usedCount_cons (l : Leaf) (ls : List Leaf) :
    usedCount (l :: ls) = (if l.isUsed then 1 else 0) + usedCount ls := by
  simp only [usedCount, List.filter_cons]
  split <;> simp [Nat.add_comm]

/-- Marking an unused leaf as used raises the used count by one. -/
theorem usedCount_set_true (leaves : List Leaf) (li : ℕ) (leaf : Leaf)
    (hget : leaves.get? li = some leaf) (hfalse : leaf.isUsed = false) :
    usedCount (leaves.set li { leaf with isUsed := true }) =
      usedCount leaves + 1 := by
  induction leaves generalizing li with
  | nil => simp at hget
  | cons hd tl ih =>
    cases li with
    | zero =>
      simp only [List.get?] at hget
      cases hget
      simp [List.set, usedCount_cons, hfalse, Nat.add_comm]
    | succ li =>
      simp only [List.get?] at hget
      have h := ih li hget
      simp [List.set, usedCount_cons, h, Nat.add_assoc]

/-- The used count never exceeds the pool size. -/
theorem usedCount_le_length (leaves : List Leaf) :
    usedCount leaves ≤ leaves.length :=
  List.length_filter_le _ _

/-- Behaviour of the `fly` marking loop on an eligible index list: the
pool size is preserved, exactly one bird is appended and exactly one
fresh leaf is marked per iteration, used flags never revert, and every
newly marked index comes from the eligible list. -/
theorem flyLoop_spec (rand : ℕ → ℕ) :
    ∀ (n k : ℕ) (avail : List ℕ) (leaves : List Leaf) (birds : List Bird),
      n ≤ avail.length → avail.Nodup →
      (∀ li ∈ avail, li < leaves.length ∧ getUsed leaves li = false) →
      (flyLoop rand n k avail leaves birds).1.length = leaves.length ∧
      (flyLoop rand n k avail leaves birds).2.length = birds.length + n ∧
      usedCount (flyLoop rand n k avail leaves birds).1 =
        usedCount leaves + n ∧
      (∀ i, getUsed leaves i = true →
        getUsed (flyLoop rand n k avail leaves birds).1 i = true) ∧
      (∀ i, getUsed (flyLoop rand n k avail leaves birds).1 i = true →
        getUsed leaves i = true ∨ i ∈ avail) := by
  intro n
  induction n with
  | zero =>
    intro k avail leaves birds _ _ _
    refine ⟨rfl, by simp [flyLoop], rfl, ?_, ?_⟩
    · intro i h; exact h
    · intro i h; exact Or.inl h
  | succ n ih =>
    intro k avail leaves birds hn hnd hinv
    have hpos : 0 < avail.length := Nat.lt_of_lt_of_le (Nat.succ_pos n) hn
    have hidx : rand k % avail.length < avail.length := Nat.mod_lt _ hpos
    set idx := rand k % avail.length with hidxdef
    set li := avail[idx] with hlidef
    have hmemli : li ∈ avail := List.getElem_mem hidx
    obtain ⟨hlt, hunused⟩ := hinv li hmemli
    have hgetavail : avail.get? idx = some li := by
      rw [List.get?_eq_getElem?, List.getElem?_eq_getElem hidx]
    have hgetleaf : leaves.get? li = some leaves[li] := by
      rw [List.get?_eq_getElem?, List.getElem?_eq_getElem hlt]
    have hleafFalse : leaves[li].isUsed = false := by
      rw [getUsed_eq_getElem leaves li hlt] at hunused; exact hunused
    have hstep : flyLoop rand (n + 1) k avail leaves birds =
        flyLoop rand n (k + 1) (avail.eraseIdx idx)
          (leaves.set li { leaves[li] with isUsed := true })
          (birds ++ [{ x := leaves[li].x, y := leaves[li].y,
                       color := leaves[li].color }]) := by
      conv_lhs => rw [flyLoop]
      simp only [← hidxdef, hgetavail, hgetleaf]
    set leaves' := leaves.set li { leaves[li] with isUsed := true }
      with hleaves'
    set avail' := avail.eraseIdx idx with havail'
    have hlen' : avail'.length = avail.length - 1 := by
      rw [havail', List.length_eraseIdx, if_pos hidx]
    have hn' : n ≤ avail'.length := by omega
    have hnd' : avail'.Nodup := hnd.sublist (List.eraseIdx_sublist avail idx)
    have hne_li : ∀ m ∈ avail', m ≠ li := by
      intro m hm hcontra
      obtain ⟨j, hj, hjne, hjm⟩ := List.mem_eraseIdx_iff_getElem.mp hm
      apply hjne
      have : avail[j] = avail[idx] := by rw [hjm, hcontra]
      exact (hnd.getElem_inj_iff).mp this
    have hsub : ∀ m ∈ avail', m ∈ avail := fun m hm =>
      (List.eraseIdx_sublist avail idx).subset hm
    have hinv' : ∀ m ∈ avail', m < leaves'.length ∧
        getUsed leaves' m = false := by
      intro m hm
      obtain ⟨hmlt, hmun⟩ := hinv m (hsub m hm)
      constructor
      · rw [hleaves', List.length_set]; exact hmlt
      · rw [hleaves', getUsed_set_of_ne leaves li m _ (hne_li m hm)]
        exact hmun
    obtain ⟨ih1, ih2, ih3, ih4, ih5⟩ :=
      ih (k + 1) avail' leaves' _ hn' hnd' hinv'
    rw [hstep]
    refine ⟨?_, ?_, ?_, ?_, ?_⟩
    · rw [ih1, hleaves', List.length_set]
    · rw [ih2]; simp only [List.length_append, List.length_singleton]; omega
    · rw [ih3, hleaves',
        usedCount_set_true leaves li leaves[li] hgetleaf hleafFalse]
      omega
    · intro i hi
      apply ih4
      by_cases hil : i = li
      · subst hil
        rw [hleaves', getUsed_set_self leaves li _ hlt]
      · rw [hleaves', getUsed_set_of_ne leaves li i _ hil]; exact hi
    · intro i hi
      rcases ih5 i hi with h | h
      · by_cases hil : i = li
        · subst hil; exact Or.inr hmemli
        · rw [hleaves', getUsed_set_of_ne leaves li i _ hil] at h
          exact Or.inl h
      · exact Or.inr (hsub i h)

/-- The eligible-index list contains no duplicate (sampling without
replacement is over distinct leaves). -/
theorem eligibleIdx_nodup (leaves : List Leaf) (color : Option String) :
    (eligibleIdx leaves color).Nodup := by
  have h1 : (leaves.enum.filter fun p => leafEligible color p.2).Sublist
      leaves.enum := List.filter_sublist _
  exact (List.nodup_enum_map_fst leaves).sublist (h1.map Prod.fst)

/-- Every eligible index is a valid pool index of an unused leaf that
passes the color filter. -/
theorem mem_eligibleIdx (leaves : List Leaf) (color : Option String)
    (li : ℕ) (h : li ∈ eligibleIdx leaves color) :
    li < leaves.length ∧ getUsed leaves li = false ∧
      leafEligible color (leaves.getD li dummyLeaf) = true := by
  simp only [eligibleIdx, List.mem_map, List.mem_filter] at h
  obtain ⟨p, ⟨hpe, hpel⟩, hpfst⟩ := h
  have hget := List.mem_enum_iff_getElem?.mp hpe
  have hlt : p.1 < leaves.length := by
    by_contra hge
    rw [List.getElem?_eq_none (Nat.le_of_not_lt hge)] at hget
    exact Option.noConfusion hget
  have hval : leaves[p.1] = p.2 := by
    rw [List.getElem?_eq_getElem hlt] at hget
    exact Option.some.inj hget
  subst hpfst
  refine ⟨hlt, ?_, ?_⟩
  · rw [getUsed_eq_getElem leaves p.1 hlt, hval]
    simp only [leafEligible, Bool.and_eq_true, Bool.not_eq_true'] at hpel
    exact hpel.1
  · rw [List.getD_eq_getElem?_getD, List.getElem?_eq_getElem hlt, hval]
    exact hpel

/-- The leaf pool size is unchanged by one `fly` call. -/
theorem fly_leaves_length (s : EngineState) (color : Option String)
    (count : ℕ) (rand : ℕ → ℕ) :
    (fly s color count rand).leaves.length = s.leaves.length := by
  have h := flyLoop_spec rand (min count (eligibleIdx s.leaves color).length)
    0 (eligibleIdx s.leaves color) s.leaves []
    (Nat.min_le_right _ _) (eligibleIdx_nodup _ _)
    (fun li hli => ⟨(mem_eligibleIdx _ _ li hli).1,
      (mem_eligibleIdx _ _ li hli).2.1⟩)
  simpa [fly] using h.1

/-- One `fly` call appends exactly `min(count, #eligible)` birds. -/
theorem fly_birds_length (s : EngineState) (color : Option String)
    (count : ℕ) (rand : ℕ → ℕ) :
    (fly s color count rand).birds.length =
      s.birds.length + min count (eligibleIdx s.leaves color).length := by
  have h := flyLoop_spec rand (min count (eligibleIdx s.leaves color).length)
    0 (eligibleIdx s.leaves color) s.leaves []
    (Nat.min_le_right _ _) (eligibleIdx_nodup _ _)
    (fun li hli => ⟨(mem_eligibleIdx _ _ li hli).1,
      (mem_eligibleIdx _ _ li hli).2.1⟩)
  have h2 := h.2.1
  simp only [fly, List.length_append]
  rw [h2]
  simp

/-- One `fly` call marks exactly `min(count, #eligible)` fresh leaves as
used. -/
theorem fly_usedCount (s : EngineState) (color : Option String)
    (count : ℕ) (rand : ℕ → ℕ) :
    usedCount (fly s color count rand).leaves =
      usedCount s.leaves + min count (eligibleIdx s.leaves color).length := by
  have h := flyLoop_spec rand (min count (eligibleIdx s.leaves color).length)
    0 (eligibleIdx s.leaves color) s.leaves []
    (Nat.min_le_right _ _) (eligibleIdx_nodup _ _)
    (fun li hli => ⟨(mem_eligibleIdx _ _ li hli).1,
      (mem_eligibleIdx _ _ li hli).2.1⟩)
  simpa [fly] using h.2.2.1

/-- A used flag never reverts across one `fly` call. -/
theorem fly_used_mono (s : EngineState) (color : Option String)
    (count : ℕ) (rand : ℕ → ℕ) (i : ℕ)
    (h : getUsed s.leaves i = true) :
    getUsed (fly s color count rand).leaves i = true := by
  have hs := flyLoop_spec rand (min count (eligibleIdx s.leaves color).length)
    0 (eligibleIdx s.leaves color) s.leaves []
    (Nat.min_le_right _ _) (eligibleIdx_nodup _ _)
    (fun li hli => ⟨(mem_eligibleIdx _ _ li hli).1,
      (mem_eligibleIdx _ _ li hli).2.1⟩)
  have := hs.2.2.2.1 i h
  simpa [fly] using this

/-- Every leaf newly marked used by a `fly` call was eligible for it
(unused and matching the color filter). -/
theorem fly_used_source (s : EngineState) (color : Option String)
    (count : ℕ) (rand : ℕ → ℕ) (i : ℕ)
    (h : getUsed (fly s color count rand).leaves i = true) :
    getUsed s.leaves i = true ∨ i ∈ eligibleIdx s.leaves color := by
  have hs := flyLoop_spec rand (min count (eligibleIdx s.leaves color).length)
    0 (eligibleIdx s.leaves color) s.leaves []
    (Nat.min_le_right _ _) (eligibleIdx_nodup _ _)
    (fun li hli => ⟨(mem_eligibleIdx _ _ li hli).1,
      (mem_eligibleIdx _ _ li hli).2.1⟩)
  apply hs.2.2.2.2 i
  simpa [fly] using h

/-- Pool size is unchanged by any sequence of `fly` calls. -/
theorem runFlys_leaves_length :
    ∀ (calls : List (Option String × ℕ × (ℕ → ℕ))) (s : EngineState),
      (runFlys s calls).leaves.length = s.leaves.length := by
  intro calls
  induction calls with
  | nil => intro s; rfl
  | cons c rest ih =>
    intro s
    rw [runFlys, ih, fly_leaves_length]

/-- The used count never decreases across a sequence of `fly` calls. -/
theorem runFlys_usedCount_mono :
    ∀ (calls : List (Option String × ℕ × (ℕ → ℕ))) (s : EngineState),
      usedCount s.leaves ≤ usedCount (runFlys s calls).leaves := by
  intro calls
  induction calls with
  | nil => intro s; exact Nat.le_refl _
  | cons c rest ih =>
    intro s
    calc usedCount s.leaves
        ≤ usedCount (fly s c.1 c.2.1 c.2.2).leaves := by
          rw [fly_usedCount]; exact Nat.le_add_right _ _
      _ ≤ usedCount (runFlys (fly s c.1 c.2.1 c.2.2) rest).leaves := ih _

/-- A used flag never reverts across a sequence of `fly` calls. -/
theorem runFlys_used_mono :
    ∀ (calls : List (Option String × ℕ × (ℕ → ℕ))) (s : EngineState) (i : ℕ),
      getUsed s.leaves i = true → getUsed (runFlys s calls).leaves i = true := by
  intro calls
  induction calls with
  | nil => intro s i h; exact h
  | cons c rest ih =>
    intro s i h
    exact ih _ i (fly_used_mono s c.1 c.2.1 c.2.2 i h)

/-- A one-leaf engine state used for concrete evaluations. -/
def sampleEngine : EngineState :=
  { leaves := [{ x := 100, y := 200, size := 12, color := [255, 248, 0],
                 colorName := "yellow", isUsed := false }],
    birds := [], looping := false }

/-- An engine state with no leaves, no birds, loop idle. -/
def emptyEngine : EngineState :=
  { leaves := [], birds := [], looping := false }

/-- An engine state with no birds but a running loop. -/
def idleProbe : EngineState :=
  { leaves := [], birds := [], looping := true }

/-- Claim C4: every `spawn(color, count)` call creates exactly
`min(count, #eligible leaves)` birds, where a leaf is eligible when
unused and (color unset or matching); exactly that many distinct leaves
flip to used (the used count rises by exactly the number of birds), each
newly used leaf was unused and passed the color filter, and when fewer
eligible leaves exist than requested only those spawn, with no error
(the operation is total). -/
theorem fly_spawn_min_eligible :
    ∀ (s : EngineState) (color : Option String) (count : ℕ) (rand : ℕ → ℕ),
      (fly s color count rand).birds.length =
        s.birds.length + min count (eligibleIdx s.leaves color).length ∧
      usedCount (fly s color count rand).leaves =
        usedCount s.leaves + min count (eligibleIdx s.leaves color).length ∧
      (∀ i, getUsed (fly s color count rand).leaves i = true →
        getUsed s.leaves i = true ∨
          (getUsed s.leaves i = false ∧
            leafEligible color (s.leaves.getD i dummyLeaf) = true)) := by
  intro s color count rand
  refine ⟨fly_birds_length s color count rand,
    fly_usedCount s color count rand, ?_⟩
  intro i hi
  rcases fly_used_source s color count rand i hi with h | h
  · exact Or.inl h
  · obtain ⟨_, hun, hel⟩ := mem_eligibleIdx s.leaves color i h
    exact Or.inr ⟨hun, hel⟩

/-- Claim C4 witness: on a one-leaf pool, `fly(null, 1)` creates one bird and
the marked leaf was unused and eligible. -/
theorem fly_spawn_min_eligible_witness :
    (getUsed (fly sampleEngine none 1 (fun _ => 0)).leaves 0 = true) ∧
    ((fly sampleEngine none 1 (fun _ => 0)).birds.length =
      sampleEngine.birds.length +
        min 1 (eligibleIdx sampleEngine.leaves none).length) ∧
    (getUsed sampleEngine.leaves 0 = true ∨
      (getUsed sampleEngine.leaves 0 = false ∧
        leafEligible none (sampleEngine.leaves.getD 0 dummyLeaf) = true)) :=
  ⟨by decide,
   (fly_spawn_min_eligible sampleEngine none 1 (fun _ => 0)).1,
   (fly_spawn_min_eligible sampleEngine none 1 (fun _ => 0)).2.2 0 (by decide)⟩

/-- Claim C5: across any sequence of `spawn` calls the pool size is
invariant, the used count is monotonically non-decreasing and bounded by
the pool size, each leaf's used flag never reverts from true (so it
transitions false to true at most once), the render step never adds or
removes leaves, and the initial generation creates one leaf per recorded
slot, all unused. -/
theorem leaf_pool_invariant_spawns :
    ∀ (s : EngineState) (calls : List (Option String × ℕ × (ℕ → ℕ))),
      (runFlys s calls).leaves.length = s.leaves.length ∧
      usedCount s.leaves ≤ usedCount (runFlys s calls).leaves ∧
      usedCount (runFlys s calls).leaves ≤ (runFlys s calls).leaves.length ∧
      (∀ i, (getUsed s.leaves i && getUsed (runFlys s calls).leaves i) =
        getUsed s.leaves i) ∧
      (∀ upd t, (drawStep upd t).leaves = t.leaves) ∧
      (∀ (positions : List (ℚ × ℚ)) (rc : ℕ → ℕ) (rs : ℕ → ℚ),
        (generateLeaves positions rc rs).length = positions.length ∧
        usedCount (generateLeaves positions rc rs) = 0) := by
  intro s calls
  refine ⟨runFlys_leaves_length calls s, runFlys_usedCount_mono calls s,
    usedCount_le_length _, ?_, fun upd t => rfl, ?_⟩
  · intro i
    cases hb : getUsed s.leaves i with
    | false => simp
    | true => simp [runFlys_used_mono calls s i hb]
  · intro positions rc rs
    constructor
    · simp [generateLeaves]
    · simp only [usedCount, generateLeaves, List.length_eq_zero,
        List.filter_eq_nil_iff]
      intro a ha
      rw [List.mem_map] at ha
      obtain ⟨p, _, hp⟩ := ha
      rw [← hp]
      simp

/-- Claim C7 counterexample: on an engine with no eligible leaves and an idle
loop, `fly(null, 1)` creates zero birds yet still restarts the frame
loop (`fly` unconditionally ends with `p.loop()` when the loop is
stopped), contradicting the claim that a spawn call creating zero birds
leaves an idle loop idle. -/
theorem zero_spawn_wakes_loop_cex :
    emptyEngine.looping = false ∧
    (fly emptyEngine none 1 (fun _ => 0)).birds = [] ∧
    (fly emptyEngine none 1 (fun _ => 0)).looping = true := by
  decide

/-- Claim C7 amended: the frame loop stops at the end of a render step that
leaves the bird set empty, and every `spawn` call — including one that
creates zero birds — leaves the loop running (a zero-bird spawn wakes an
idle loop, which idles again after the next render step). -/
theorem engine_loop_idle_and_resume :
    (∀ (upd : Bird → Bird) (s : EngineState),
      (drawStep upd s).birds = [] → (drawStep upd s).looping = false) ∧
    (∀ (s : EngineState) (color : Option String) (count : ℕ)
      (rand : ℕ → ℕ), (fly s color count rand).looping = true) := by
  constructor
  · intro upd s h
    simp only [drawStep] at h ⊢
    simp [h]
  · intro s color count rand
    simp [fly]

/-- Claim C7 witness: a render step on a birdless running loop stops it, and a
spawn on the empty engine leaves the loop flag set. -/
theorem engine_loop_idle_and_resume_witness :
    ((drawStep (fun b => b) idleProbe).birds = [] ∧
      (drawStep (fun b => b) idleProbe).looping = false) ∧
    (fly emptyEngine (some "yellow") 2 (fun _ => 1)).looping = true :=
  ⟨⟨by decide,
    engine_loop_idle_and_resume.1 (fun b => b) idleProbe (by decide)⟩,
   engine_loop_idle_and_resume.2 emptyEngine (some "yellow") 2 (fun _ => 1)⟩

/-- A campaign-timer firing never changes which campaign is installed. -/
theorem intervalTick_flightInterval (r : ℕ → ℕ) (s : SysState) :
    (intervalTick r s).flightInterval = s.flightInterval := by
  cases h : s.flightInterval <;> simp [intervalTick, h]

/-- While a campaign `(c, n)` is installed, a run of timer firings keeps
it installed and appends one `(c, n)` spawn per firing to the log. -/
theorem runSys_ticks_spawn (c : String) (n : ℕ) :
    ∀ (es : List SEvent) (s : SysState), s.flightInterval = some (c, n) →
      es.all SEvent.isTick = true →
      (runSys s es).flightInterval = some (c, n) ∧
      (runSys s es).spawnLog = s.spawnLog ++ es.map (fun _ => (c, n)) := by
  intro es
  induction es with
  | nil => intro s h _; exact ⟨h, by simp [runSys]⟩
  | cons e rest ih =>
    intro s h hall
    rw [List.all_cons, Bool.and_eq_true] at hall
    cases e with
    | start c' n' => simp [SEvent.isTick] at hall
    | handle => simp [SEvent.isTick] at hall
    | teardown => simp [SEvent.isTick] at hall
    | tick r =>
      have hstep : sysStep s (SEvent.tick r) =
          { s with engine := fly s.engine (some c) n r,
                   spawnLog := s.spawnLog ++ [(c, n)] } := by
        simp [sysStep, intervalTick, h]
      have hfi : (sysStep s (SEvent.tick r)).flightInterval = some (c, n) := by
        rw [hstep]; exact h
      obtain ⟨ih1, ih2⟩ := ih (sysStep s (SEvent.tick r)) hfi hall.2
      refine ⟨by rw [runSys]; exact ih1, ?_⟩
      rw [runSys, ih2, hstep]
      simp

/-- Claim C6: `startRandomFlight(color, count)` supersedes any previous
campaign — the single `flightInterval` slot is overwritten, so at most
one campaign is ever installed — and after starting campaign B on top of
campaign A, every timer firing spawns with B's color and count only;
the cancellation handle clears the installed interval, after which timer
firings spawn nothing. -/
theorem flight_campaign_exclusive :
    (∀ (c : String) (n : ℕ) (s : SysState),
      (startRF c n s).flightInterval = some (c, n)) ∧
    (∀ (s : SysState) (c1 c2 : String) (n1 n2 : ℕ) (es : List SEvent),
      es.all SEvent.isTick = true →
      (runSys (sysStep (sysStep s (SEvent.start c1 n1))
          (SEvent.start c2 n2)) es).spawnLog =
        s.spawnLog ++ es.map (fun _ => (c2, n2))) ∧
    (∀ (s : SysState) (c : String) (n : ℕ),
      (handleCall (startRF c n s)).flightInterval = none) ∧
    (∀ (s : SysState) (c : String) (n : ℕ) (r : ℕ → ℕ),
      sysStep (handleCall (startRF c n s)) (SEvent.tick r) =
        handleCall (startRF c n s)) := by
  refine ⟨fun c n s => rfl, ?_, fun s c n => rfl, ?_⟩
  · intro s c1 c2 n1 n2 es hall
    have h := runSys_ticks_spawn c2 n2 es
      (sysStep (sysStep s (SEvent.start c1 n1)) (SEvent.start c2 n2))
      rfl hall
    rw [h.2]
    rfl
  · intro s c n r
    simp [sysStep, intervalTick, handleCall, startRF]

/-- Claim C6 witness: concrete two-campaign run — after starting `("ash", 1)`
then `("pink", 2)`, two timer firings log exactly two `("pink", 2)`
spawns; the handle clears the interval and a firing after it is a
no-op. -/
theorem flight_campaign_exclusive_witness :
    ((startRF "ash" 1 ⟨none, emptyEngine, []⟩).flightInterval =
      some ("ash", 1)) ∧
    ([SEvent.tick fun _ => 0,
      SEvent.tick fun _ => 0].all SEvent.isTick = true) ∧
    ((runSys (sysStep (sysStep ⟨none, emptyEngine, []⟩
        (SEvent.start "ash" 1)) (SEvent.start "pink" 2))
        [SEvent.tick fun _ => 0, SEvent.tick fun _ => 0]).spawnLog =
      (⟨none, emptyEngine, []⟩ : SysState).spawnLog ++
        [SEvent.tick (fun _ => 0),
         SEvent.tick fun _ => 0].map (fun _ => ("pink", 2))) ∧
    (sysStep (handleCall (startRF "black" 3 ⟨none, emptyEngine, []⟩))
        (SEvent.tick fun _ => 0) =
      handleCall (startRF "black" 3 ⟨none, emptyEngine, []⟩)) :=
  ⟨flight_campaign_exclusive.1 "ash" 1 ⟨none, emptyEngine, []⟩,
   by decide,
   flight_campaign_exclusive.2.1 ⟨none, emptyEngine, []⟩ "ash" "pink" 1 2
     [SEvent.tick fun _ => 0, SEvent.tick fun _ => 0] (by decide),
   flight_campaign_exclusive.2.2.2 ⟨none, emptyEngine, []⟩ "black" 3
     (fun _ => 0)⟩

/-- While a campaign `(c, n)` is installed, a run of orchestrator-side
timer firings keeps it installed and appends one `(c, n)` spawn per
firing. -/
theorem runOrch_ticks_spawn (c : String) (n : ℕ) :
    ∀ (es : List OEvent) (s : SysState), s.flightInterval = some (c, n) →
      es.all OEvent.isTick = true →
      (runOrch s es).flightInterval = some (c, n) ∧
      (runOrch s es).spawnLog = s.spawnLog ++ es.map (fun _ => (c, n)) := by
  intro es
  induction es with
  | nil => intro s h _; exact ⟨h, by simp [runOrch]⟩
  | cons e rest ih =>
    intro s h hall
    rw [List.all_cons, Bool.and_eq_true] at hall
    cases e with
    | ostart c' n' => simp [OEvent.isTick] at hall
    | oteardown => simp [OEvent.isTick] at hall
    | otick r =>
      have hstep : orchStep s (OEvent.otick r) =
          { s with engine := fly s.engine (some c) n r,
                   spawnLog := s.spawnLog ++ [(c, n)] } := by
        simp [orchStep, intervalTick, h]
      have hfi : (orchStep s (OEvent.otick r)).flightInterval =
          some (c, n) := by rw [hstep]; exact h
      obtain ⟨ih1, ih2⟩ := ih (orchStep s (OEvent.otick r)) hfi hall.2
      refine ⟨by rw [runOrch]; exact ih1, ?_⟩
      rw [runOrch, ih2, hstep]
      simp

/-- Claim C10: the hook's `startRandomFlight` wrapper returns no cancellation
handle (its result is the new state alone) and installs the campaign;
within the orchestrator's event alphabet (hook start, timer firing,
teardown) a started campaign persists through any run of timer firings,
spawning `(color, count)` once per period; and the only orchestrator
events that change the installed campaign are a new start or component
teardown — no reachable operation merely stops a running campaign. -/
theorem orchestrator_cannot_stop_campaign :
    (∀ (s : SysState) (c : String) (n : ℕ),
      (hookStartRandomFlight s c n).flightInterval = some (c, n)) ∧
    (∀ (s : SysState) (c : String) (n : ℕ) (es : List OEvent),
      es.all OEvent.isTick = true →
      (runOrch (hookStartRandomFlight s c n) es).flightInterval =
        some (c, n) ∧
      (runOrch (hookStartRandomFlight s c n) es).spawnLog =
        s.spawnLog ++ es.map (fun _ => (c, n))) ∧
    (∀ (s : SysState) (e : OEvent),
      (orchStep s e).flightInterval ≠ s.flightInterval →
      (∃ c n, e = OEvent.ostart c n) ∨ e = OEvent.oteardown) := by
  refine ⟨fun s c n => rfl, ?_, ?_⟩
  · intro s c n es hall
    exact runOrch_ticks_spawn c n es (hookStartRandomFlight s c n) rfl hall
  · intro s e he
    cases e with
    | ostart c n => exact Or.inl ⟨c, n, rfl⟩
    | oteardown => exact Or.inr rfl
    | otick r => exact absurd (intervalTick_flightInterval r s) he

/-- Claim C10 witness: a concrete hook-started campaign persists over two
timer firings and logs two spawns; a start event changes the installed
campaign and is classified as such. -/
theorem orchestrator_cannot_stop_campaign_witness :
    ((hookStartRandomFlight ⟨none, emptyEngine, []⟩ "green" 4).flightInterval
      = some ("green", 4)) ∧
    ([OEvent.otick fun _ => 0,
      OEvent.otick fun _ => 0].all OEvent.isTick = true) ∧
    ((runOrch (hookStartRandomFlight ⟨none, emptyEngine, []⟩ "green" 4)
        [OEvent.otick fun _ => 0, OEvent.otick fun _ => 0]).flightInterval =
      some ("green", 4)) ∧
    ((orchStep ⟨none, emptyEngine, []⟩ (OEvent.ostart "red" 1)).flightInterval
        ≠ (⟨none, emptyEngine, []⟩ : SysState).flightInterval →
      (∃ c n, OEvent.ostart "red" 1 = OEvent.ostart c n) ∨
        OEvent.ostart "red" 1 = OEvent.oteardown) :=
  ⟨orchestrator_cannot_stop_campaign.1 ⟨none, emptyEngine, []⟩ "green" 4,
   by decide,
   (orchestrator_cannot_stop_campaign.2.1 ⟨none, emptyEngine, []⟩ "green" 4
     [OEvent.otick fun _ => 0, OEvent.otick fun _ => 0] (by decide)).1,
   orchestrator_cannot_stop_campaign.2.2 ⟨none, emptyEngine, []⟩
     (OEvent.ostart "red" 1)⟩

/-- Inductive invariant of the scheduler: with `pending` clear there is
no outstanding request, and there is never more than one. -/
def schedInv (s : MonitorState) : Prop :=
  s.outstanding ≤ if s.pending then 1 else 0

/-- Every monitor step preserves the scheduler invariant. -/
theorem schedInv_step (noteOf : ℚ → String × ℤ) (s : MonitorState)
    (e : MEvent) (h : schedInv s) : schedInv (monitorStep noteOf s e) := by
  cases e with
  | setup => exact h
  | disable => exact h
  | frame =>
    by_cases hc : s.cancelled
    · simpa [monitorStep, frameStep, hc] using h
    · by_cases hp : s.pending
      · simpa [monitorStep, frameStep, updatePitchSync, hc, hp] using h
      · have h0 : s.outstanding = 0 := by
          unfold schedInv at h
          rw [if_neg hp] at h
          omega
        by_cases hr : s.ready
        · simp [monitorStep, frameStep, updatePitchSync, hc, hp, hr,
            schedInv, h0]
        · simp [monitorStep, frameStep, updatePitchSync, hc, hp, hr,
            schedInv, h0]
  | resolve f c =>
    by_cases ho : s.outstanding = 0
    · simpa [monitorStep, resolveResponse, ho] using h
    · have h1 : s.outstanding ≤ 1 := by
        unfold schedInv at h
        by_cases hp : s.pending
        · rwa [if_pos hp] at h
        · rw [if_neg hp] at h; omega
      by_cases hf : (0 : ℚ) < f
      · simp [monitorStep, resolveResponse, ho, hf, schedInv]
        omega
      · simp [monitorStep, resolveResponse, ho, hf, schedInv]
        omega

/-- The scheduler invariant holds along every trace from the initial
state. -/
theorem schedInv_run (noteOf : ℚ → String × ℤ) :
    ∀ (es : List MEvent) (s : MonitorState), schedInv s →
      schedInv (runMonitor noteOf s es) := by
  intro es
  induction es with
  | nil => intro s h; exact h
  | cons e rest ih => intro s h; exact ih _ (schedInv_step noteOf s e h)

/-- Claim C2: along every event trace of one monitor instance at most one
`getPitch` request is outstanding; a tick taken while `pending` is set
returns immediately without changing anything; any step that issues a
request leaves `pending` set; and `pending` is only ever cleared by a
step that processes the response of an outstanding request. -/
theorem scheduler_one_outstanding :
    (∀ (noteOf : ℚ → String × ℤ) (es : List MEvent),
      (runMonitor noteOf monitorInit es).outstanding ≤ 1) ∧
    (∀ (noteOf : ℚ → String × ℤ) (s : MonitorState), s.pending = true →
      monitorStep noteOf s MEvent.frame = s) ∧
    (∀ (noteOf : ℚ → String × ℤ) (s : MonitorState) (e : MEvent),
      s.outstanding < (monitorStep noteOf s e).outstanding →
      (monitorStep noteOf s e).pending = true) ∧
    (∀ (noteOf : ℚ → String × ℤ) (s : MonitorState) (e : MEvent),
      s.pending = true → (monitorStep noteOf s e).pending = false →
      (∃ f c, e = MEvent.resolve f c) ∧ s.outstanding ≠ 0) := by
  refine ⟨?_, ?_, ?_, ?_⟩
  · intro noteOf es
    have h := schedInv_run noteOf es monitorInit (by simp [schedInv, monitorInit])
    unfold schedInv at h
    split at h
    · exact h
    · exact Nat.le_trans h (Nat.zero_le 1)
  · intro noteOf s hp
    by_cases hc : s.cancelled <;>
      simp [monitorStep, frameStep, updatePitchSync, hc, hp]
  · intro noteOf s e hlt
    cases e with
    | setup => exact absurd hlt (lt_irrefl _)
    | disable => exact absurd hlt (lt_irrefl _)
    | frame =>
      by_cases hc : s.cancelled
      · rw [show monitorStep noteOf s MEvent.frame = s by
          simp [monitorStep, frameStep, hc]] at hlt
        exact absurd hlt (lt_irrefl _)
      · by_cases hp : s.pending
        · rw [show monitorStep noteOf s MEvent.frame = s by
            simp [monitorStep, frameStep, updatePitchSync, hc, hp]] at hlt
          exact absurd hlt (lt_irrefl _)
        · by_cases hr : s.ready
          · simp [monitorStep, frameStep, updatePitchSync, hc, hp, hr]
          · rw [show monitorStep noteOf s MEvent.frame =
                { s with pending := true } by
              simp [monitorStep, frameStep, updatePitchSync, hc, hp, hr]]
              at hlt
            exact absurd hlt (lt_irrefl _)
    | resolve f c =>
      by_cases ho : s.outstanding = 0
      · rw [show monitorStep noteOf s (MEvent.resolve f c) = s by
          simp [monitorStep, resolveResponse, ho]] at hlt
        exact absurd hlt (lt_irrefl _)
      · have hout : (monitorStep noteOf s (MEvent.resolve f c)).outstanding =
            s.outstanding - 1 := by
          by_cases hf : (0 : ℚ) < f <;>
            simp [monitorStep, resolveResponse, ho, hf]
        rw [hout] at hlt
        omega
  · intro noteOf s e hp hcl
    cases e with
    | setup => rw [show (monitorStep noteOf s MEvent.setup).pending = s.pending
        from rfl, hp] at hcl; exact absurd hcl (by simp)
    | disable => rw [show (monitorStep noteOf s MEvent.disable).pending
        = s.pending from rfl, hp] at hcl; exact absurd hcl (by simp)
    | frame =>
      have hs : monitorStep noteOf s MEvent.frame = s := by
        by_cases hc : s.cancelled <;>
          simp [monitorStep, frameStep, updatePitchSync, hc, hp]
      rw [hs, hp] at hcl
      exact absurd hcl (by simp)
    | resolve f c =>
      refine ⟨⟨f, c, rfl⟩, ?_⟩
      intro ho
      rw [show monitorStep noteOf s (MEvent.resolve f c) = s by
        simp [monitorStep, resolveResponse, ho]] at hcl
      rw [hp] at hcl
      exact absurd hcl (by simp)

/-- Claim C2 witness: concrete instances of each conjunct of
`scheduler_one_outstanding`. -/
theorem scheduler_one_outstanding_witness :
    ((runMonitor (fun _ => ("A", 4)) monitorInit
        [MEvent.setup, MEvent.frame, MEvent.frame]).outstanding ≤ 1) ∧
    (monitorStep (fun _ => ("A", 4))
        { monitorInit with pending := true } MEvent.frame =
      { monitorInit with pending := true }) ∧
    ((monitorStep (fun _ => ("A", 4)) (setupDone monitorInit)
        MEvent.frame).pending = true) ∧
    ((∃ f c, MEvent.resolve (5 : ℚ) 1 = MEvent.resolve f c) ∧
      ({ monitorInit with
          pending := true,
          outstanding := 1 } : MonitorState).outstanding ≠ 0) :=
  ⟨scheduler_one_outstanding.1 (fun _ => ("A", 4))
     [MEvent.setup, MEvent.frame, MEvent.frame],
   scheduler_one_outstanding.2.1 (fun _ => ("A", 4))
     { monitorInit with pending := true } (by decide),
   scheduler_one_outstanding.2.2.1 (fun _ => ("A", 4))
     (setupDone monitorInit) MEvent.frame (by decide),
   scheduler_one_outstanding.2.2.2 (fun _ => ("A", 4))
     { monitorInit with pending := true, outstanding := 1 }
     (MEvent.resolve 5 1) (by decide) (by decide)⟩

/-- Claim C1 (code bug): a tick taken while the capture context is not ready
skips the frame and issues no request — but `updatePitch` sets
`pendingRef.current = true` before the readiness check and its early
return never resets it, so the monitor stays pending forever: a later
tick taken after setup completes still issues no request, contrary to
the claim that every later tick can. -/
theorem notReady_tick_disarms_scheduler :
    ((runMonitor (fun _ => ("A", 4)) monitorInit
        [MEvent.frame]).outstanding = 0) ∧
    ((runMonitor (fun _ => ("A", 4)) monitorInit
        [MEvent.frame]).pending = true) ∧
    ((runMonitor (fun _ => ("A", 4)) monitorInit
        [MEvent.frame]).freq = none) ∧
    ((runMonitor (fun _ => ("A", 4)) monitorInit
        [MEvent.frame, MEvent.setup, MEvent.frame]).outstanding = 0) := by
  decide

/-- Claim C3 counterexample: set up, issue a request, disable the monitor,
then let the in-flight request resolve with frequency 100: the resolved
result is still acted upon after cancellation — the displayed frequency
becomes 100 and a delayed flight campaign (color from the note, count
from the octave) is scheduled — contradicting the claim that the result
is not acted upon. -/
theorem disable_does_not_block_inflight_cex :
    ((runMonitor (fun _ => ("A", 4)) monitorInit
        [MEvent.setup, MEvent.frame, MEvent.disable,
         MEvent.resolve 100 1]).cancelled = true) ∧
    ((runMonitor (fun _ => ("A", 4)) monitorInit
        [MEvent.setup, MEvent.frame, MEvent.disable,
         MEvent.resolve 100 1]).freq = some 100) ∧
    ((runMonitor (fun _ => ("A", 4)) monitorInit
        [MEvent.setup, MEvent.frame, MEvent.disable,
         MEvent.resolve 100 1]).scheduledFlights = [(some "ash", 4)]) := by
  decide

/-- Claim C3 amended: after the cancellation flag is set, frame events are
no-ops (no new request, no display change originates from a tick, and
every step is a total function — disabling cannot throw); but the result
of a request already in flight is still fully acted upon when it
resolves: the display is updated to it and a delayed flight campaign is
scheduled from it. -/
theorem disable_stops_ticks_not_inflight :
    (∀ (noteOf : ℚ → String × ℤ) (s : MonitorState), s.cancelled = true →
      monitorStep noteOf s MEvent.frame = s) ∧
    (∀ (noteOf : ℚ → String × ℤ) (s : MonitorState) (f c : ℚ),
      s.cancelled = true → s.outstanding ≠ 0 → 0 < f →
      (monitorStep noteOf s (MEvent.resolve f c)).freq = some f ∧
      (monitorStep noteOf s (MEvent.resolve f c)).scheduledFlights =
        s.scheduledFlights ++ [(colorMap (noteOf f).1, (noteOf f).2)]) := by
  constructor
  · intro noteOf s hc
    simp [monitorStep, frameStep, hc]
  · intro noteOf s f c _ ho hf
    constructor <;> simp [monitorStep, resolveResponse, ho, hf]

/-- Claim C3 amended witness: concrete instances — a cancelled state ignores a
frame event, and a cancelled state with one outstanding request still
updates the display and schedules a flight when the response arrives. -/
theorem disable_stops_ticks_not_inflight_witness :
    (monitorStep (fun _ => ("A", 4))
        { monitorInit with cancelled := true } MEvent.frame =
      { monitorInit with cancelled := true }) ∧
    ((monitorStep (fun _ => ("A", 4))
        { monitorInit with cancelled := true, outstanding := 1 }
        (MEvent.resolve 100 1)).freq = some 100 ∧
      (monitorStep (fun _ => ("A", 4))
        { monitorInit with cancelled := true, outstanding := 1 }
        (MEvent.resolve 100 1)).scheduledFlights =
        ({ monitorInit with
            cancelled := true,
            outstanding := 1 } : MonitorState).scheduledFlights ++
          [(colorMap ((fun (_ : ℚ) => (("A" : String), (4 : ℤ))) 100).1,
            ((fun (_ : ℚ) => (("A" : String), (4 : ℤ))) 100).2)]) :=
  ⟨disable_stops_ticks_not_inflight.1 (fun _ => ("A", 4))
     { monitorInit with cancelled := true } (by decide),
   disable_stops_ticks_not_inflight.2 (fun _ => ("A", 4))
     { monitorInit with cancelled := true, outstanding := 1 } 100 1
     (by decide) (by decide) (by decide)⟩

/-- A flatMap over an index range whose segments all have the same
length has length range-size times that length. -/
theorem length_flatMap_const {α : Type} (n : ℕ) (f : ℕ → List α) (c : ℕ)
    (h : ∀ i, (f i).length = c) :
    ((List.range n).flatMap f).length = n * c := by
  rw [List.length_flatMap]
  have hrep : (List.range n).map (List.length ∘ f) = List.replicate n c := by
    rw [List.eq_replicate_iff]
    constructor
    · simp
    · intro b hb
      rw [List.mem_map] at hb
      obtain ⟨i, _, hi⟩ := hb
      rw [← hi]; exact h i
  rw [hrep, List.sum_replicate, smul_eq_mul]

/-- The number of slots `generateLeafPositions` records depends only on
the depth: it equals `posCount` for every start point, length, angle,
trig functions and π value. -/
theorem generateLeafPositions_length (cs sn : ℚ → ℚ) (pi : ℚ) :
    ∀ (d : ℕ) (x y len angle : ℚ),
      (generateLeafPositions cs sn pi d x y len angle).length = posCount d := by
  intro d
  induction d using Nat.strong_induction_on with
  | _ d ih =>
    rcases d with - | d
    · intro x y len angle; rfl
    rcases d with - | d
    · intro x y len angle; rfl
    intro x y len angle
    simp only [generateLeafPositions]
    rw [length_flatMap_const _ _ (1 + posCount (d + 1))]
    · rfl
    · intro i
      rw [List.length_cons, ih (d + 1) (by omega)]
      exact Nat.add_comm _ 1

/-- Claim C8 amended: the generation records a slot at every branch endpoint
of every recursion level, plus one more at each endpoint reached with
remaining depth ≤ 1 (so the deepest endpoints are recorded twice); the
total count is the fixed function `posCount` of the depth and
branch-count rule alone — `1` at depth ≤ 1, else `b · (1 + posCount
(depth − 1))` with `b = 3` when depth > 4, else `2` — identical across
generations with the same parameters. -/
theorem leaf_slot_count_fixed :
    ∀ (cs sn cs2 sn2 : ℚ → ℚ) (pi pi2 : ℚ) (d : ℕ)
      (x y len angle x2 y2 len2 angle2 : ℚ),
      (generateLeafPositions cs sn pi d x y len angle).length = posCount d ∧
      (generateLeafPositions cs sn pi d x y len angle).length =
        (generateLeafPositions cs2 sn2 pi2 d x2 y2 len2 angle2).length := by
  intro cs sn cs2 sn2 pi pi2 d x y len angle x2 y2 len2 angle2
  refine ⟨generateLeafPositions_length cs sn pi d x y len angle, ?_⟩
  rw [generateLeafPositions_length, generateLeafPositions_length]

/-- Claim C8 counterexample: at depth 2 the source records 4 slots — each of
the two child endpoints is pushed by the parent level and pushed again
by the depth-1 base case — whereas recording exactly one slot per
endpoint reached at depth ≤ 1, and nowhere else, would give 2; indeed
the recorded list holds the first child endpoint twice in a row. -/
theorem leaf_slot_placement_cex :
    (generateLeafPositions (fun _ => 1) (fun _ => 0) 3 2 0 0 1 0).length
      = 4 ∧
    claimedLeafCount 2 = 2 ∧
    (generateLeafPositions (fun _ => 1) (fun _ => 0) 3 2 0 0 1 0).getD 0
        (0, 0) =
      (generateLeafPositions (fun _ => 1) (fun _ => 0) 3 2 0 0 1 0).getD 1
        (0, 0) := by
  have hlist : generateLeafPositions (fun _ => 1) (fun _ => 0) 3 2 0 0 1 0 =
      [(1, 0), (1, 0), (1, 0), (1, 0)] := by
    simp [generateLeafPositions, List.flatMap, List.range_succ]
  rw [hlist]
  refine ⟨rfl, rfl, rfl⟩

/-- On an exact equal-temperament frequency `440 · 2^(n/12)` the rounded
semitone offset is exactly `n`. -/
theorem semitoneOffset_exact (n : ℤ) :
    semitoneOffset (440 * (2 : ℝ) ^ ((n : ℝ) / 12)) = n := by
  unfold semitoneOffset
  rw [mul_comm (440 : ℝ), mul_div_assoc, div_self (by norm_num : (440:ℝ) ≠ 0),
    mul_one, Real.logb_rpow (by norm_num) (by norm_num),
    mul_comm (12 : ℝ), div_mul_cancel₀ _ (by norm_num : (12:ℝ) ≠ 0)]
  exact round_intCast n

/-- Claim C9 amended: the note mapper follows 12-tone equal temperament
referenced to A4 = 440 Hz with semitone offset `round(12·log2(f/440))`,
name = `(offset + 9) mod 12` indexed into the chromatic sequence from C
(the index the spec's own examples force) and octave
`4 + floor((offset + 9)/12)`; exact semitone multiples map to the
expected pairs — 440 → (A, 4), 880 → (A, 5) — and the source's
`colorMap` realizes exactly the 12-entry palette C→yellow … B→black. -/
theorem note_mapping_equal_temperament :
    (∀ n : ℤ, freqToNote (440 * (2 : ℝ) ^ ((n : ℝ) / 12)) = noteOfOffset n) ∧
    freqToNote 440 = ("A", 4) ∧
    colorMap "A" = some "ash" ∧
    freqToNote 880 = ("A", 5) ∧
    noteNames.map colorMap = paletteNames.map some := by
  have hmain : ∀ n : ℤ,
      freqToNote (440 * (2 : ℝ) ^ ((n : ℝ) / 12)) = noteOfOffset n := by
    intro n
    unfold freqToNote
    rw [semitoneOffset_exact]
  refine ⟨hmain, ?_, by decide, ?_, by decide⟩
  · have h := hmain 0
    rw [show (((0 : ℤ) : ℝ) / 12) = 0 by norm_num, Real.rpow_zero,
      mul_one] at h
    rw [h]
    decide
  · have h := hmain 12
    rw [show (((12 : ℤ) : ℝ) / 12) = 1 by norm_num, Real.rpow_one] at h
    rw [show (880 : ℝ) = 440 * 2 by norm_num, h]
    decide

/-- Claim C9 counterexample: the claim's literal name formula indexes the
chromatic sequence at `offset mod 12`, which at the reference frequency
440 Hz (offset 0) yields note C; the claim simultaneously demands
440 → (A, 4), so the formula and the example cannot both hold of any
function. -/
theorem note_name_formula_cex :
    freqToNoteLiteral 440 = ("C", 4) ∧
    (("C", (4 : ℤ)) ≠ (("A" : String), (4 : ℤ))) := by
  constructor
  · unfold freqToNoteLiteral
    have h : semitoneOffset 440 = 0 := by
      unfold semitoneOffset
      rw [div_self (by norm_num : (440 : ℝ) ≠ 0), Real.logb_one]
      simp
    rw [h]
    decide
  · decide
